import Mathlib

/-!
Shallow embedding of the scheduling core of `os_mpi.py` (MPI-OS-Simulation).

The embedding covers the parts of the program the verified properties talk
about: the `Process` record, the local execution backend `simulate_process`,
the remote (MPI) execution path of `run_scheduler` with its recv-failure
fallback, the dispatch bookkeeping of `run_scheduler` (run-length selection,
start/end time stamping, clock advance, requeue handling), the outer
dispatch loop (modelled with explicit fuel), the worker loop `worker_loop`,
the statistics routine `show_completion_stats`, the `reset` handler, and the
process generation at the top of `run_scheduler`.

Conventions: Python integers that are provably non-negative in the program
are modelled as `Nat`; `max(0, a - b)` on such values is `Nat` truncated
subtraction `a - b`.  Where the worker handles raw wire values we use `Int`
and write `max 0 (..)` literally.  GUI updates, colors, logging text and
wall-clock sleeps are not part of the model; the one log event a claim
mentions (the MPI recv-error log line) is modelled as a boolean flag.
Thread interleaving is modelled by a per-dispatch `stop` observation for the
local backend and a per-dispatch receive result for the remote backend.
-/

/-- Simulation parameter `TIME_QUANTUM = 2` (src line 21). -/
def TIME_QUANTUM : Nat := 2

/-- Simulation parameter `NUM_CPUS = 3` (src line 22), the cpu count when
not running under MPI. -/
def NUM_CPUS : Nat := 3

/-- State of `Process.__init__` (src lines 34-48): identity, static timing,
mutable progress and the execution history of `(cpu_id, start, end)`
intervals.  The random display color is presentation-only and omitted. -/
structure Process where
  pid : Nat
  burst : Nat
  arrival : Nat
  remaining : Nat
  start_time : Option Nat
  end_time : Option Nat
  execution_history : List (Nat × Nat × Nat)
deriving DecidableEq

/-- Constructor `Process(pid, burst, arrival)`: `remaining` starts at `burst`,
`start_time`/`end_time` start unset, history starts empty (src 35-48). -/
def mkProcess (pid burst arrival : Nat) : Process :=
  { pid := pid, burst := burst, arrival := arrival, remaining := burst,
    start_time := none, end_time := none, execution_history := [] }

/-- The two values of the algorithm combobox: "Round Robin" and "FCFS". -/
inductive Algo where
  | rr
  | fcfs
deriving DecidableEq

/-- Run-length selection (src line 546):
`run = min(TIME_QUANTUM, proc.remaining) if algo == "Round Robin" else proc.remaining`. -/
def selectRun (algo : Algo) (p : Process) : Nat :=
  match algo with
  | Algo.rr => min TIME_QUANTUM p.remaining
  | Algo.fcfs => p.remaining

/-- Sum of interval durations `end - start` over a process's execution
history. -/
def histSum (p : Process) : Nat :=
  (p.execution_history.map (fun h => h.2.2 - h.2.1)).sum

/-- The per-process invariant stated by the spec: `remaining` equals `burst`
minus the total recorded execution, and `end_time` is set exactly when
`remaining` is zero. -/
def procInvariant (p : Process) : Prop :=
  p.remaining = p.burst - histSum p ∧ (p.end_time ≠ none ↔ p.remaining = 0)

instance (p : Process) : Decidable (procInvariant p) := by
  unfold procInvariant
  infer_instance

/-- Local backend `SchedulerApp.simulate_process` (src 489-511).  The
sleep/progress-bar loop runs `run_time` unit steps, checking
`stop_event.is_set()` at the top of each; `stop` records whether the stop
event was observed at any of those checks.  If it was, the function returns
`0` immediately and the history interval is NOT appended; otherwise the
interval `(cpu_id, clock, clock + run_time)` is appended and the result is
`max(0, remaining - run_time)` (Nat subtraction here). -/
def simulate_process (stop : Bool) (cpu_id clock : Nat) (p : Process)
    (run_time : Nat) : Process × Nat :=
  if stop ∧ 0 < run_time then (p, 0)
  else
    ({ p with execution_history :=
        p.execution_history ++ [(cpu_id, clock, clock + run_time)] },
     p.remaining - run_time)

/-- Remote execution path of `run_scheduler` (src 557-574): send
`(pid, run)` to the worker, record the interval
`(cpu_id, clock, clock + run)`, and take `remaining` from the worker's
reply; `recvResult = none` models `comm.recv` raising (timeout or channel
error), in which case the controller logs the failure and falls back to
`max(0, proc.remaining - run)` (src 566-570).  The returned `Bool` is true
exactly when the recv-error log line was emitted. -/
def mpi_execute (recvResult : Option Nat) (cpu_id clock : Nat) (p : Process)
    (run : Nat) : Process × Nat × Bool :=
  let remaining :=
    match recvResult with
    | some r => r
    | none => p.remaining - run
  ({ p with execution_history :=
      p.execution_history ++ [(cpu_id, clock, clock + run)] },
   remaining, recvResult.isNone)

/-- Which execution backend a dispatch uses, together with the
per-dispatch environment observation: the stop flag for the local backend
(`RUNNING_WITH_MPI = False`), the receive outcome for the remote one. -/
inductive Backend where
  | sim (stop : Bool)
  | mpi (recvResult : Option Nat)
deriving DecidableEq

/-- Dispatches `execute` to the chosen backend (src 557-577). -/
def execute_backend : Backend → Nat → Nat → Process → Nat → Process × Nat × Bool
  | Backend.sim stop, cpu_id, clock, p, run =>
      let r := simulate_process stop cpu_id clock p run
      (r.1, r.2, false)
  | Backend.mpi recvResult, cpu_id, clock, p, run =>
      mpi_execute recvResult cpu_id clock p run

/-- Result of one dispatch iteration of the inner CPU loop. `proc` is the
dispatched process's state after the iteration (it also appears in `queue`
or in `done`); `done` collects processes that left the ready queue,
`loggedRecvError` records the MPI recv-error log line. -/
structure DR where
  clock : Nat
  queue : List Process
  done : List Process
  run : Nat
  proc : Process
  loggedRecvError : Bool
deriving DecidableEq

/-- One dispatch: the body of the inner `for cpu_id ...` loop of
`run_scheduler` (src 545-598) after the process `p` has been popped from
the front of the ready queue (`queue` is the rest of the queue).
Steps, in source order: compute `run` (546), stamp `start_time` on first
dispatch (549-550), execute on the backend (557-577), advance the clock by
`run` and store the returned `remaining` (580-581), set `end_time` when
`remaining == 0` (585-586), and requeue at the back only when
`remaining > 0` AND the algorithm is Round Robin (593-595); in every other
case the process leaves the ready queue. -/
def dispatch (algo : Algo) (be : Backend) (cpu_id clock : Nat) (p : Process)
    (queue done : List Process) : DR :=
  let run := selectRun algo p
  let p₁ := { p with
    start_time := if p.start_time = none then some clock else p.start_time }
  let r := execute_backend be cpu_id clock p₁ run
  let remaining := r.2.1
  let clock' := clock + run
  let p₃ := { r.1 with
    remaining := remaining,
    end_time := if remaining = 0 then some clock' else r.1.end_time }
  ⟨clock',
   if 0 < remaining ∧ algo = Algo.rr then queue ++ [p₃] else queue,
   if 0 < remaining ∧ algo = Algo.rr then done else done ++ [p₃],
   run, p₃, r.2.2⟩

/-- Stable insertion by ascending `arrival`: helper for `sortByArrival`. -/
def insertByArrival (p : Process) : List Process → List Process
  | [] => [p]
  | q :: qs =>
      if p.arrival ≤ q.arrival then p :: q :: qs else q :: insertByArrival p qs

/-- Embedding of `sorted(key=lambda p: p.arrival)` (src 520 and 537): Python's `sorted`
is a stable ascending sort; stable insertion sort is extensionally the
same. -/
def sortByArrival (l : List Process) : List Process :=
  l.foldr insertByArrival []

/-- Process generation at the top of `run_scheduler` (src 519):
`[Process(i+1, random.randint(4, 10), i) for i in range(6)]`, with the
random draw abstracted as a function `b` from the index to the burst
(`random.randint(4, 10)` guarantees `4 ≤ b i ≤ 10`, both ends
inclusive). -/
def gen_processes (b : Nat → Nat) : List Process :=
  (List.range 6).map (fun i => mkProcess (i + 1) (b i) i)

/-- State threaded through the dispatch loop of `run_scheduler`:
the simulation clock, the ready queue `queue_proc`, the processes that have
left the ready queue (in Python they simply stay in `self.processes`; the
model keeps them here so that every generated process is either in `queue`
or in `done`), the run lengths dispatched so far in order, and a dispatch
counter used to index the per-dispatch backend schedule. -/
structure LoopState where
  clock : Nat
  queue : List Process
  done : List Process
  runs : List Nat
  nDisp : Nat
deriving DecidableEq

/-- The inner `for cpu_id in range(1, cpu_count + 1)` loop of
`run_scheduler` (src 541-602): `k` counts the remaining CPU slots of the
cycle, so `cpu_id = cpuCount - k + 1`; the loop stops early when the queue
is empty (src 542-543).  `bes` gives each dispatch its backend
observation. -/
def runCycleAux (algo : Algo) (bes : Nat → Backend) (cpuCount : Nat) :
    Nat → LoopState → LoopState
  | 0, st => st
  | k + 1, st =>
      match st.queue with
      | [] => st
      | p :: rest =>
          let cpu_id := cpuCount - k
          let r := dispatch algo (bes st.nDisp) cpu_id st.clock p rest st.done
          runCycleAux algo bes cpuCount k
            ⟨r.clock, r.queue, r.done, st.runs ++ [r.run], st.nDisp + 1⟩

/-- The outer `while self.queue_proc` loop of `run_scheduler` (src
532-605), modelled with explicit fuel (each fuel unit is one outer cycle).
Before each cycle FCFS re-sorts the ready queue by arrival (src 536-537).
This models runs in which the stop event is never set while the loop is
examining it; stop behaviour is analysed at dispatch granularity. -/
def runSched (algo : Algo) (bes : Nat → Backend) (cpuCount : Nat) :
    Nat → LoopState → LoopState
  | 0, st => st
  | fuel + 1, st =>
      if st.queue.isEmpty then st
      else
        let st₁ :=
          if algo = Algo.fcfs then { st with queue := sortByArrival st.queue }
          else st
        runSched algo bes cpuCount fuel (runCycleAux algo bes cpuCount cpuCount st₁)

/-- The pid slot of a worker request: the controller sends either a real
pid or the string sentinel `"STOP"` (src 559 and 643). -/
inductive WorkerMsgPid where
  | STOP
  | pid (n : Nat)
deriving DecidableEq

/-- Worker peer `worker_loop` (src 648-655), as the list of replies produced for a
stream of received requests.  Each iteration receives `(pid, burst)`; on
the `STOP` sentinel it breaks out of the loop without replying; otherwise
it sleeps and replies `max(0, burst - TIME_QUANTUM)` — the second slot of
the request is the controller's chosen run length (src 559), and the
decrement is always by the fixed quantum, with no dependence on the
controller's scheduling policy. -/
def worker_loop : List (WorkerMsgPid × Int) → List Int
  | [] => []
  | (WorkerMsgPid.STOP, _) :: _ => []
  | (WorkerMsgPid.pid _, b) :: rest =>
      max 0 (b - (TIME_QUANTUM : Int)) :: worker_loop rest

/-- Turnaround time of a completed process: `end_time - arrival`
(src 621). -/
def turnaround (p : Process) : ℚ :=
  (p.end_time.getD 0 : ℚ) - (p.arrival : ℚ)

/-- Waiting time of a completed process: `end_time - arrival - burst`
(src 624). -/
def waiting (p : Process) : ℚ :=
  turnaround p - (p.burst : ℚ)

/-- The completed processes: those with `end_time` set (src 616). -/
def completedOf (ps : List Process) : List Process :=
  ps.filter (fun p => p.end_time ≠ none)

/-- Statistics routine `SchedulerApp.show_completion_stats` (src 614-629): over the processes
with `end_time` set, the mean turnaround and mean waiting time; if no
process has completed the function returns early and computes nothing
(modelled as `none`), so the divisions never see a zero length. -/
def show_completion_stats (ps : List Process) : Option (ℚ × ℚ) :=
  let completed := completedOf ps
  if completed.isEmpty then none
  else
    some (((completed.map turnaround).sum) / (completed.length : ℚ),
          ((completed.map waiting).sum) / (completed.length : ℚ))

/-- The `SchedulerApp` fields touched by `reset` and the claims about it:
the clock, the master process list, the ready queue and the top-level
`simulation_history` list. -/
structure AppState where
  clock : Nat
  processes : List Process
  queue_proc : List Process
  simulation_history : List (Nat × Nat × Nat)
deriving DecidableEq

/-- Handler `SchedulerApp.reset` (src 337-361): besides signalling the stop event,
joining the scheduler thread and clearing the GUI canvases, it sets
`self.clock = 0` and `self.simulation_history = []` (src 357-359).  It
does not assign `self.processes` or `self.queue_proc`. -/
def reset (s : AppState) : AppState :=
  { s with clock := 0, simulation_history := [] }

example :
    (dispatch Algo.rr (Backend.sim false) 1 0 (mkProcess 1 4 0) [] []).proc.remaining = 2 := by
  decide

example :
    (dispatch Algo.rr (Backend.sim true) 1 0 (mkProcess 1 4 0) [] []).proc.remaining = 0 := by
  decide

example :
    (dispatch Algo.fcfs (Backend.sim false) 1 0 (mkProcess 1 4 0) [] []).proc.end_time = some 4 := by
  decide

/-! ## Structural facts about a single dispatch -/

/-- The `run` field of a dispatch is the policy's run-length selection. -/
theorem dispatch_run (algo : Algo) (be : Backend) (cpu_id clock : Nat) (p : Process)
    (queue done : List Process) :
    (dispatch algo be cpu_id clock p queue done).run = selectRun algo p := rfl

/-- Each dispatch advances the clock by exactly the selected run length
(src 580). -/
theorem dispatch_clock (algo : Algo) (be : Backend) (cpu_id clock : Nat) (p : Process)
    (queue done : List Process) :
    (dispatch algo be cpu_id clock p queue done).clock = clock + selectRun algo p := rfl

/-- The ready queue after a dispatch: the process is appended at the back
exactly when it still has work left and the algorithm is Round Robin
(src 593-595); otherwise the queue is left as it was. -/
theorem dispatch_queue (algo : Algo) (be : Backend) (cpu_id clock : Nat) (p : Process)
    (queue done : List Process) :
    (dispatch algo be cpu_id clock p queue done).queue
      = if 0 < (dispatch algo be cpu_id clock p queue done).proc.remaining ∧ algo = Algo.rr
        then queue ++ [(dispatch algo be cpu_id clock p queue done).proc]
        else queue := rfl

/-- The `done` side of a dispatch, dual to `dispatch_queue`: the process
lands among the processes that left the ready queue in every case except a
Round Robin requeue. -/
theorem dispatch_done (algo : Algo) (be : Backend) (cpu_id clock : Nat) (p : Process)
    (queue done : List Process) :
    (dispatch algo be cpu_id clock p queue done).done
      = if 0 < (dispatch algo be cpu_id clock p queue done).proc.remaining ∧ algo = Algo.rr
        then done
        else done ++ [(dispatch algo be cpu_id clock p queue done).proc] := rfl

/-- On a failed receive the dispatched process's `remaining` is the
deterministic fallback `max(0, remaining - run)` (src 570). -/
theorem dispatch_mpi_none_remaining (algo : Algo) (cpu_id clock : Nat) (p : Process)
    (queue done : List Process) :
    (dispatch algo (Backend.mpi none) cpu_id clock p queue done).proc.remaining
      = p.remaining - selectRun algo p := rfl

/-- The policy never selects more than the process's remaining work. -/
theorem selectRun_le_remaining (algo : Algo) (p : Process) :
    selectRun algo p ≤ p.remaining := by
  cases algo <;> simp [selectRun]

/-- A local-backend dispatch that never observes the stop event preserves
the per-process invariant (and the bound `histSum ≤ burst` that carries
it): the history gains one interval of duration exactly `run`, `remaining`
drops by exactly `run`, and `end_time` becomes set exactly when
`remaining` reaches 0. -/
theorem dispatch_sim_no_stop_preserves_invariant (algo : Algo) (cpu_id clock : Nat)
    (p : Process) (queue done : List Process)
    (hinv : procInvariant p) (hh : histSum p ≤ p.burst) :
    procInvariant (dispatch algo (Backend.sim false) cpu_id clock p queue done).proc ∧
    histSum (dispatch algo (Backend.sim false) cpu_id clock p queue done).proc
      ≤ (dispatch algo (Backend.sim false) cpu_id clock p queue done).proc.burst := by
  have hrun := selectRun_le_remaining algo p
  have hrem : (dispatch algo (Backend.sim false) cpu_id clock p queue done).proc.remaining
      = p.remaining - selectRun algo p := rfl
  have hburst : (dispatch algo (Backend.sim false) cpu_id clock p queue done).proc.burst
      = p.burst := rfl
  have hend : (dispatch algo (Backend.sim false) cpu_id clock p queue done).proc.end_time
      = if p.remaining - selectRun algo p = 0 then some (clock + selectRun algo p)
        else p.end_time := rfl
  have hl : (dispatch algo (Backend.sim false) cpu_id clock p queue done).proc.execution_history
      = p.execution_history ++ [(cpu_id, clock, clock + selectRun algo p)] := rfl
  have hhist : histSum (dispatch algo (Backend.sim false) cpu_id clock p queue done).proc
      = histSum p + selectRun algo p := by
    simp [histSum, hl]
  obtain ⟨hinv1, hinv2⟩ := hinv
  refine ⟨⟨?_, ?_⟩, ?_⟩
  · rw [hrem, hburst, hhist]
    omega
  · rw [hrem, hend]
    by_cases h0 : p.remaining - selectRun algo p = 0
    · simp [h0]
    · rw [if_neg h0, hinv2]
      omega
  · rw [hhist, hburst]
    omega

/-! ## Clock bookkeeping of the dispatch loop -/

/-- Across one CPU cycle, the clock grows by exactly the sum of the newly
dispatched run lengths (stated additively to stay in `Nat`). -/
theorem runCycleAux_clock_runs (algo : Algo) (bes : Nat → Backend) (cpuCount : Nat)
    (k : Nat) : ∀ st : LoopState,
    (runCycleAux algo bes cpuCount k st).clock + st.runs.sum
      = st.clock + (runCycleAux algo bes cpuCount k st).runs.sum := by
  induction k with
  | zero => intro st; rfl
  | succ k ih =>
      intro st
      cases hq : st.queue with
      | nil => simp [runCycleAux, hq]
      | cons p rest =>
          have h := ih ⟨(dispatch algo (bes st.nDisp) (cpuCount - k) st.clock p rest st.done).clock,
            (dispatch algo (bes st.nDisp) (cpuCount - k) st.clock p rest st.done).queue,
            (dispatch algo (bes st.nDisp) (cpuCount - k) st.clock p rest st.done).done,
            st.runs ++ [(dispatch algo (bes st.nDisp) (cpuCount - k) st.clock p rest st.done).run],
            st.nDisp + 1⟩
          have hc := dispatch_clock algo (bes st.nDisp) (cpuCount - k) st.clock p rest st.done
          have hr := dispatch_run algo (bes st.nDisp) (cpuCount - k) st.clock p rest st.done
          simp only [runCycleAux, hq]
          simp only [List.sum_append, List.sum_cons, List.sum_nil] at h ⊢
          omega

/-- The clock never decreases across one CPU cycle. -/
theorem runCycleAux_clock_mono (algo : Algo) (bes : Nat → Backend) (cpuCount : Nat)
    (k : Nat) : ∀ st : LoopState,
    st.clock ≤ (runCycleAux algo bes cpuCount k st).clock := by
  induction k with
  | zero => intro st; exact Nat.le_refl _
  | succ k ih =>
      intro st
      cases hq : st.queue with
      | nil => simp [runCycleAux, hq]
      | cons p rest =>
          have h := ih ⟨(dispatch algo (bes st.nDisp) (cpuCount - k) st.clock p rest st.done).clock,
            (dispatch algo (bes st.nDisp) (cpuCount - k) st.clock p rest st.done).queue,
            (dispatch algo (bes st.nDisp) (cpuCount - k) st.clock p rest st.done).done,
            st.runs ++ [(dispatch algo (bes st.nDisp) (cpuCount - k) st.clock p rest st.done).run],
            st.nDisp + 1⟩
          have hc := dispatch_clock algo (bes st.nDisp) (cpuCount - k) st.clock p rest st.done
          simp only [runCycleAux, hq]
          simp only at h
          omega

/-- Unfolding one outer cycle of the dispatch loop when the queue is
non-empty. -/
theorem runSched_succ_of_ne (algo : Algo) (bes : Nat → Backend) (cpuCount fuel : Nat)
    (st : LoopState) (hq : st.queue.isEmpty = false) :
    runSched algo bes cpuCount (fuel + 1) st
      = runSched algo bes cpuCount fuel (runCycleAux algo bes cpuCount cpuCount
          (if algo = Algo.fcfs then { st with queue := sortByArrival st.queue } else st)) := by
  simp [runSched, hq]

/-- Across a whole run, the clock grows by exactly the sum of the
dispatched run lengths. -/
theorem runSched_clock_runs (algo : Algo) (bes : Nat → Backend) (cpuCount : Nat)
    (fuel : Nat) : ∀ st : LoopState,
    (runSched algo bes cpuCount fuel st).clock + st.runs.sum
      = st.clock + (runSched algo bes cpuCount fuel st).runs.sum := by
  induction fuel with
  | zero => intro st; rfl
  | succ fuel ih =>
      intro st
      cases hq : st.queue.isEmpty with
      | true => simp [runSched, hq]
      | false =>
          rw [runSched_succ_of_ne algo bes cpuCount fuel st hq]
          have hcy := runCycleAux_clock_runs algo bes cpuCount cpuCount
            (if algo = Algo.fcfs then { st with queue := sortByArrival st.queue } else st)
          have hs := ih (runCycleAux algo bes cpuCount cpuCount
            (if algo = Algo.fcfs then { st with queue := sortByArrival st.queue } else st))
          have h1 : (if algo = Algo.fcfs then { st with queue := sortByArrival st.queue }
              else st).clock = st.clock := by
            split <;> rfl
          have h2 : (if algo = Algo.fcfs then { st with queue := sortByArrival st.queue }
              else st).runs.sum = st.runs.sum := by
            split <;> rfl
          omega

/-- The simulation clock is monotonically non-decreasing across an entire
run. -/
theorem runSched_clock_mono (algo : Algo) (bes : Nat → Backend) (cpuCount : Nat)
    (fuel : Nat) : ∀ st : LoopState,
    st.clock ≤ (runSched algo bes cpuCount fuel st).clock := by
  induction fuel with
  | zero => intro st; exact Nat.le_refl _
  | succ fuel ih =>
      intro st
      cases hq : st.queue.isEmpty with
      | true => simp [runSched, hq]
      | false =>
          rw [runSched_succ_of_ne algo bes cpuCount fuel st hq]
          have hcy := runCycleAux_clock_mono algo bes cpuCount cpuCount
            (if algo = Algo.fcfs then { st with queue := sortByArrival st.queue } else st)
          have hs := ih (runCycleAux algo bes cpuCount cpuCount
            (if algo = Algo.fcfs then { st with queue := sortByArrival st.queue } else st))
          have h1 : (if algo = Algo.fcfs then { st with queue := sortByArrival st.queue }
              else st).clock = st.clock := by
            split <;> rfl
          omega

/-! ## Claim theorems -/

/-- C1: the claim says that after every dispatch step every process
satisfies `remaining == burst - sum(interval durations)` with `endTime` set
iff `remaining == 0`.  The code violates this on the stop path: when the
stop event is observed during `simulate_process`, the backend returns `0`
without appending the history interval (src 499-500), and `run_scheduler`
then stores `remaining = 0` and stamps `end_time` (src 581-586).
Evaluating the code at the failing input — Round Robin, local backend,
process `pid 1, burst 4` whose first dispatch observes the stop event —
yields `remaining = 0`, an empty history, and a set `end_time`, so
`remaining ≠ burst - Σ durations` (`0 ≠ 4 - 0`) and the invariant fails. -/
theorem stop_dispatch_breaks_process_invariant :
    (dispatch Algo.rr (Backend.sim true) 1 0 (mkProcess 1 4 0) [] []).proc.remaining = 0 ∧
    (dispatch Algo.rr (Backend.sim true) 1 0 (mkProcess 1 4 0) [] []).proc.execution_history = [] ∧
    (dispatch Algo.rr (Backend.sim true) 1 0 (mkProcess 1 4 0) [] []).proc.burst = 4 ∧
    (dispatch Algo.rr (Backend.sim true) 1 0 (mkProcess 1 4 0) [] []).proc.end_time = some 2 ∧
    ¬ procInvariant (dispatch Algo.rr (Backend.sim true) 1 0 (mkProcess 1 4 0) [] []).proc := by
  refine ⟨rfl, rfl, rfl, rfl, ?_⟩
  decide

/-- C2: under Round Robin every dispatch selects run length
`min(quantum, remaining)` (src 546), and whenever the process still has
work left after the slice it is appended to the back of the ready queue
(src 593-595), for any backend. -/
theorem rr_dispatch_run_length_and_requeue (be : Backend) (cpu_id clock : Nat)
    (p : Process) (queue done : List Process) :
    (dispatch Algo.rr be cpu_id clock p queue done).run = min TIME_QUANTUM p.remaining ∧
    (0 < (dispatch Algo.rr be cpu_id clock p queue done).proc.remaining →
      (dispatch Algo.rr be cpu_id clock p queue done).queue
        = queue ++ [(dispatch Algo.rr be cpu_id clock p queue done).proc]) := by
  refine ⟨rfl, fun h => ?_⟩
  rw [dispatch_queue]
  simp [h]

/-- C2 witness: a concrete Round Robin dispatch of a process with
`remaining = 5` runs for `min(2, 5) = 2` units and is requeued at the back
of the (here empty) ready queue. -/
theorem rr_dispatch_run_length_and_requeue_witness :
    (dispatch Algo.rr (Backend.sim false) 1 0 (mkProcess 1 5 0) [] []).run
        = min TIME_QUANTUM (mkProcess 1 5 0).remaining ∧
    (dispatch Algo.rr (Backend.sim false) 1 0 (mkProcess 1 5 0) [] []).queue
        = [] ++ [(dispatch Algo.rr (Backend.sim false) 1 0 (mkProcess 1 5 0) [] []).proc] :=
  ⟨(rr_dispatch_run_length_and_requeue (Backend.sim false) 1 0 (mkProcess 1 5 0) [] []).1,
   (rr_dispatch_run_length_and_requeue (Backend.sim false) 1 0 (mkProcess 1 5 0) [] []).2
     (by decide)⟩

/-- C3 counterexample: the claim says that under FCFS a dispatch whose
backend returns `remaining > 0` is put back into the ready queue.  In the
code the requeue branch is guarded by `algo == "Round Robin"` (src
593-595), so an FCFS process with leftover work is dropped: here a worker
reply of `3` for a process with `remaining = 5` leaves the ready queue
empty while the process leaves the system with `remaining = 3`. -/
theorem fcfs_partial_not_requeued_cex :
    0 < (dispatch Algo.fcfs (Backend.mpi (some 3)) 1 0 (mkProcess 1 5 0) [] []).proc.remaining ∧
    (dispatch Algo.fcfs (Backend.mpi (some 3)) 1 0 (mkProcess 1 5 0) [] []).queue = [] ∧
    (dispatch Algo.fcfs (Backend.mpi (some 3)) 1 0 (mkProcess 1 5 0) [] []).done
      ≠ ([] : List Process) := by
  refine ⟨by decide, rfl, by decide⟩

/-- C3 amended: under FCFS a dispatched process never returns to the
ready queue, whatever the backend reports; it always leaves the ready
queue permanently (only Round Robin requeues partial processes). -/
theorem fcfs_dispatch_never_requeues (be : Backend) (cpu_id clock : Nat)
    (p : Process) (queue done : List Process) :
    (dispatch Algo.fcfs be cpu_id clock p queue done).queue = queue ∧
    (dispatch Algo.fcfs be cpu_id clock p queue done).done
      = done ++ [(dispatch Algo.fcfs be cpu_id clock p queue done).proc] := by
  constructor
  · rw [dispatch_queue]
    simp
  · rw [dispatch_done]
    simp

/-- C4: in MPI mode, a dispatch whose receive from the worker fails logs
the failure and falls back to the deterministic
`max(0, proc.remaining - run)` (src 566-570, `Nat` subtraction here), and
the dispatch loop carries on: a whole Round Robin run in which every
receive fails still drains the queue, dispatching `[2, 2, 2, 2, 1]` for
bursts 4 and 5. -/
theorem mpi_recv_failure_fallback_and_continue :
    (∀ (algo : Algo) (cpu_id clock : Nat) (p : Process) (queue done : List Process),
      (dispatch algo (Backend.mpi none) cpu_id clock p queue done).loggedRecvError = true ∧
      (dispatch algo (Backend.mpi none) cpu_id clock p queue done).proc.remaining
        = p.remaining - (dispatch algo (Backend.mpi none) cpu_id clock p queue done).run) ∧
    (runSched Algo.rr (fun _ => Backend.mpi none) 3 10
        ⟨0, [mkProcess 1 4 0, mkProcess 2 5 1], [], [], 0⟩).queue = [] ∧
    (runSched Algo.rr (fun _ => Backend.mpi none) 3 10
        ⟨0, [mkProcess 1 4 0, mkProcess 2 5 1], [], [], 0⟩).runs = [2, 2, 2, 2, 1] :=
  ⟨fun algo c k p q d => ⟨rfl, rfl⟩, by decide, by decide⟩

/-- C5: the worker loop exits on the `STOP` sentinel without replying, and
for any other request replies exactly `max(0, b - TIME_QUANTUM)` where `b`
is the run-length value received in the request (src 648-655); the reply
rule has no dependence on the controller's scheduling policy. -/
theorem worker_loop_stop_and_decrement (x b : Int) (n : Nat)
    (rest : List (WorkerMsgPid × Int)) :
    worker_loop ((WorkerMsgPid.STOP, x) :: rest) = [] ∧
    worker_loop ((WorkerMsgPid.pid n, b) :: rest)
      = max 0 (b - (TIME_QUANTUM : Int)) :: worker_loop rest :=
  ⟨rfl, rfl⟩

/-- C6: across any run the simulation clock is monotonically
non-decreasing; each dispatch advances the clock by exactly its run
length; and a run started at clock 0 ends with the clock equal to the sum
of all dispatched run lengths, across all processes and both policies and
backends. -/
theorem clock_monotone_and_sums_runs (algo : Algo) (bes : Nat → Backend)
    (cpuCount fuel : Nat) :
    (∀ st : LoopState, st.clock ≤ (runSched algo bes cpuCount fuel st).clock) ∧
    (∀ (a : Algo) (be : Backend) (cpu_id clock : Nat) (p : Process)
        (queue done : List Process),
      (dispatch a be cpu_id clock p queue done).clock
        = clock + (dispatch a be cpu_id clock p queue done).run) ∧
    (∀ queue : List Process,
      (runSched algo bes cpuCount fuel ⟨0, queue, [], [], 0⟩).clock
        = (runSched algo bes cpuCount fuel ⟨0, queue, [], [], 0⟩).runs.sum) := by
  refine ⟨runSched_clock_mono algo bes cpuCount fuel, fun a be c k p q d => rfl,
    fun queue => ?_⟩
  have h := runSched_clock_runs algo bes cpuCount fuel ⟨0, queue, [], [], 0⟩
  simpa using h

/-- C7: statistics are computed only over processes with `end_time` set,
using `turnaround = endTime - arrival` and `waiting = turnaround - burst`,
reported as arithmetic means over the completed processes; when no process
has completed the routine returns without computing anything, so no
division by zero occurs (src 614-629). -/
theorem completion_stats_means_over_completed (ps : List Process) :
    (completedOf ps = [] → show_completion_stats ps = none) ∧
    (completedOf ps ≠ [] →
      show_completion_stats ps
        = some (((completedOf ps).map turnaround).sum / ((completedOf ps).length : ℚ),
                ((completedOf ps).map waiting).sum / ((completedOf ps).length : ℚ))) ∧
    (∀ p ∈ completedOf ps, p.end_time ≠ none ∧
      turnaround p = (p.end_time.getD 0 : ℚ) - (p.arrival : ℚ) ∧
      waiting p = turnaround p - (p.burst : ℚ)) := by
  refine ⟨fun h => ?_, fun h => ?_, fun p hp => ?_⟩
  · simp [show_completion_stats, h]
  · rw [show_completion_stats]
    rw [if_neg]
    simp [List.isEmpty_iff, h]
  · refine ⟨?_, rfl, rfl⟩
    have := List.mem_filter.mp hp
    simpa using this.2

/-- C7 witness: two completed processes, `(arrival 0, burst 4, end 4)` and
`(arrival 1, burst 6, end 10)`, make the completed set non-empty and the
statistics come out as the means over exactly that set. -/
theorem completion_stats_means_over_completed_witness :
    completedOf [{ mkProcess 1 4 0 with remaining := 0, end_time := some 4 },
                 { mkProcess 2 6 1 with remaining := 0, end_time := some 10 }] ≠ [] ∧
    show_completion_stats
        [{ mkProcess 1 4 0 with remaining := 0, end_time := some 4 },
         { mkProcess 2 6 1 with remaining := 0, end_time := some 10 }]
      = some
        (((completedOf [{ mkProcess 1 4 0 with remaining := 0, end_time := some 4 },
            { mkProcess 2 6 1 with remaining := 0, end_time := some 10 }]).map turnaround).sum
          / ((completedOf [{ mkProcess 1 4 0 with remaining := 0, end_time := some 4 },
              { mkProcess 2 6 1 with remaining := 0, end_time := some 10 }]).length : ℚ),
         ((completedOf [{ mkProcess 1 4 0 with remaining := 0, end_time := some 4 },
            { mkProcess 2 6 1 with remaining := 0, end_time := some 10 }]).map waiting).sum
          / ((completedOf [{ mkProcess 1 4 0 with remaining := 0, end_time := some 4 },
              { mkProcess 2 6 1 with remaining := 0, end_time := some 10 }]).length : ℚ)) :=
  ⟨by decide,
   (completion_stats_means_over_completed
      [{ mkProcess 1 4 0 with remaining := 0, end_time := some 4 },
       { mkProcess 2 6 1 with remaining := 0, end_time := some 10 }]).2.1 (by decide)⟩

/-- C8: the claim is right that a stop-interrupted dispatch records no
partial history interval — `simulate_process` returns without appending
anything (src 499-500) — but wrong as a whole because the code then
leaves `remaining` inconsistent: the backend's early `return 0` makes
`run_scheduler` store `remaining = 0` (src 581) for a process that ran for
no recorded time, breaking `remaining == burst - Σ durations`.  Evaluated
at the failing input FCFS, process `pid 2, burst 6`, stop observed during
its first dispatch. -/
theorem stop_dispatch_zeroes_remaining_no_partial_interval :
    (simulate_process true 2 5 (mkProcess 2 6 1) 6).1.execution_history = [] ∧
    (simulate_process true 2 5 (mkProcess 2 6 1) 6).2 = 0 ∧
    (dispatch Algo.fcfs (Backend.sim true) 2 5 (mkProcess 2 6 1) [] []).proc.execution_history
      = [] ∧
    (dispatch Algo.fcfs (Backend.sim true) 2 5 (mkProcess 2 6 1) [] []).proc.remaining = 0 ∧
    (dispatch Algo.fcfs (Backend.sim true) 2 5 (mkProcess 2 6 1) [] []).proc.burst = 6 ∧
    ¬ procInvariant (dispatch Algo.fcfs (Backend.sim true) 2 5 (mkProcess 2 6 1) [] []).proc := by
  refine ⟨rfl, rfl, rfl, rfl, rfl, ?_⟩
  decide

/-- C9 counterexample: the claim says `reset` empties the processes, the
ready queue and the execution history.  In the code `reset` assigns only
`clock`, the GUI widgets and `simulation_history` (src 337-361); run from
a state with one process in `processes` and in `queue_proc`, the process
list and the queue are still non-empty afterwards. -/
theorem reset_does_not_clear_processes_cex :
    ¬ (((reset ⟨7, [mkProcess 1 5 0], [mkProcess 1 5 0], [(1, 0, 2)]⟩).processes = [] ∧
        (reset ⟨7, [mkProcess 1 5 0], [mkProcess 1 5 0], [(1, 0, 2)]⟩).queue_proc = [])) := by
  decide

/-- C9 amended: `reset` clears the clock to 0 and empties the top-level
`simulation_history`, but leaves the processes list and the ready queue
untouched — those are regenerated only by the next `run_scheduler` start
(src 519-520). -/
theorem reset_clears_clock_and_history_only (s : AppState) :
    (reset s).clock = 0 ∧ (reset s).simulation_history = [] ∧
    (reset s).processes = s.processes ∧ (reset s).queue_proc = s.queue_proc :=
  ⟨rfl, rfl, rfl, rfl⟩

/-- C10: every run generates exactly 6 processes with `pid = i + 1`,
`arrival = i` and a burst drawn from `randint(4, 10)` (both ends
inclusive), so all bursts lie in `[4, 10]`, `remaining` starts at `burst`,
all arrivals are distinct, and sorting the batch by arrival — the initial
ready queue of src 520 — leaves it unchanged. -/
theorem gen_processes_shape_and_sorted (b : Nat → Nat)
    (hb : ∀ i, i < 6 → 4 ≤ b i ∧ b i ≤ 10) :
    gen_processes b
      = [mkProcess 1 (b 0) 0, mkProcess 2 (b 1) 1, mkProcess 3 (b 2) 2,
         mkProcess 4 (b 3) 3, mkProcess 5 (b 4) 4, mkProcess 6 (b 5) 5] ∧
    (gen_processes b).length = 6 ∧
    (∀ p ∈ gen_processes b, 4 ≤ p.burst ∧ p.burst ≤ 10 ∧ p.remaining = p.burst) ∧
    ((gen_processes b).map (fun p => p.arrival)).Pairwise (· ≠ ·) ∧
    sortByArrival (gen_processes b) = gen_processes b := by
  refine ⟨rfl, rfl, ?_, ?_, rfl⟩
  · intro p hp
    have hlist : gen_processes b
        = [mkProcess 1 (b 0) 0, mkProcess 2 (b 1) 1, mkProcess 3 (b 2) 2,
           mkProcess 4 (b 3) 3, mkProcess 5 (b 4) 4, mkProcess 6 (b 5) 5] := rfl
    rw [hlist] at hp
    simp only [List.mem_cons, List.not_mem_nil, or_false] at hp
    rcases hp with h|h|h|h|h|h <;> subst h <;>
      exact ⟨(hb _ (by omega)).1, (hb _ (by omega)).2, rfl⟩
  · have hmap : (gen_processes b).map (fun p => p.arrival) = [0, 1, 2, 3, 4, 5] := rfl
    rw [hmap]
    decide

/-- C10 witness: with every burst equal to 5 (inside `[4, 10]`), the
generated batch has the claimed shape. -/
theorem gen_processes_shape_and_sorted_witness :
    gen_processes (fun _ => 5)
      = [mkProcess 1 ((fun _ => 5) 0) 0, mkProcess 2 ((fun _ => 5) 1) 1,
         mkProcess 3 ((fun _ => 5) 2) 2, mkProcess 4 ((fun _ => 5) 3) 3,
         mkProcess 5 ((fun _ => 5) 4) 4, mkProcess 6 ((fun _ => 5) 5) 5] ∧
    (gen_processes (fun _ => 5)).length = 6 ∧
    (∀ p ∈ gen_processes (fun _ => 5), 4 ≤ p.burst ∧ p.burst ≤ 10 ∧ p.remaining = p.burst) ∧
    ((gen_processes (fun _ => 5)).map (fun p => p.arrival)).Pairwise (· ≠ ·) ∧
    sortByArrival (gen_processes (fun _ => 5)) = gen_processes (fun _ => 5) :=
  gen_processes_shape_and_sorted (fun _ => 5) (fun i _ => ⟨by norm_num, by norm_num⟩)
